import Mathlib

/-!
# Shallow embedding of `src/js/csvParser.js` (`class CSVParser`)

The parser state (`this.headers`, `this.data`) is made explicit as a `PState`
value; `parse` returns the post-call state together with the error thrown, if
any, so that statements about failed parses can talk about the state the
parser is left in.  JS numbers are modelled as exact rationals plus a distinct
`NaN` value; `Math.sqrt` followed by `toFixed(2)` is modelled as the exact
square root correctly rounded to hundredths.  The numeric-string coercion
(`isNaN` / `parseFloat`) is modelled on the decimal-literal fragment of the JS
number grammar (optional sign, digits with optional fraction, optional
exponent), which covers every string the claims and the spec exercise.
-/

namespace CSVParser

/-- JS `String.prototype.trim` on a character list: drop whitespace from both
ends. -/
def jsTrimList (l : List Char) : List Char :=
  ((l.dropWhile Char.isWhitespace).reverse.dropWhile Char.isWhitespace).reverse

/-- JS `s.trim()`. -/
def jsTrim (s : String) : String := String.mk (jsTrimList s.data)

/-- Helper for `jsSplitNL`: accumulates the current line (in order). -/
def splitNLAux : List Char → List Char → List String
  | [], cur => [String.mk cur.reverse]
  | c :: rest, cur =>
      if c = '\n' then String.mk cur.reverse :: splitNLAux rest []
      else splitNLAux rest (c :: cur)

/-- JS `s.split('\n')`: always yields at least one (possibly empty) piece;
in particular `"".split('\n')` is `[""]`. -/
def jsSplitNL (s : String) : List String := splitNLAux s.data []

/-- The scanning loop of `CSVParser.parseCSVLine` (csvParser.js:67-93):
accumulator `cur`, `insideQuotes` flag `inQ`, emitted fields `acc`.
A `"` inside quotes followed by another `"` emits a literal quote and skips
both; any other `"` toggles the flag; a `,` outside quotes ends the field
(fields are trimmed as they are pushed); every other character (including `,`
inside quotes) is appended verbatim.  At end of line the final accumulator is
trimmed and pushed. -/
def parseLineAux : List Char → Bool → List Char → List String → List String
  | [], _, cur, acc => acc ++ [String.mk (jsTrimList cur)]
  | '"' :: '"' :: rest, true, cur, acc => parseLineAux rest true (cur ++ ['"']) acc
  | '"' :: rest, inQ, cur, acc => parseLineAux rest (!inQ) cur acc
  | ',' :: rest, false, cur, acc => parseLineAux rest false [] (acc ++ [String.mk (jsTrimList cur)])
  | c :: rest, inQ, cur, acc => parseLineAux rest inQ (cur ++ [c]) acc

/-- `CSVParser.parseCSVLine` (csvParser.js:67-93). -/
def parseCSVLine (line : String) : List String := parseLineAux line.data false [] []

/-! ## The decimal fragment of JS numeric strings -/

/-- Value of a digit string, most significant first. -/
def digitsToNat (l : List Char) : ℕ := l.foldl (fun a c => 10 * a + (c.toNat - 48)) 0

/-- Exponent part after `e`/`E`: optional sign then at least one digit,
consuming the whole remainder. -/
def decExp? : List Char → Option ℤ
  | [] => none
  | '+' :: ds => if ds ≠ [] ∧ ds.all Char.isDigit then some (digitsToNat ds : ℤ) else none
  | '-' :: ds => if ds ≠ [] ∧ ds.all Char.isDigit then some (-(digitsToNat ds : ℤ)) else none
  | ds => if ds.all Char.isDigit then some (digitsToNat ds : ℤ) else none

/-- Applies an optional trailing exponent to a significand. -/
def withExp (m : ℚ) : List Char → Option ℚ
  | [] => some m
  | 'e' :: rest => (decExp? rest).map (fun e => m * (10 : ℚ) ^ e)
  | 'E' :: rest => (decExp? rest).map (fun e => m * (10 : ℚ) ^ e)
  | _ => none

/-- Unsigned significand with optional fraction and exponent:
`digits [. digits] [exp]` or `. digits [exp]`. -/
def sigExp? (l : List Char) : Option ℚ :=
  let ip := l.takeWhile Char.isDigit
  let rest1 := l.drop ip.length
  match rest1 with
  | '.' :: rest2 =>
      let fp := rest2.takeWhile Char.isDigit
      let rest3 := rest2.drop fp.length
      if ip = [] ∧ fp = [] then none
      else withExp ((digitsToNat ip : ℚ) + (digitsToNat fp : ℚ) / (10 : ℚ) ^ fp.length) rest3
  | _ => if ip = [] then none else withExp (digitsToNat ip : ℚ) rest1

/-- A full (already trimmed) decimal numeric literal, with optional sign:
the fragment of the JS number grammar used by the water-quality data.
`none` means the string is not a numeric literal. -/
def numLit? (s : String) : Option ℚ :=
  match s.data with
  | [] => none
  | '+' :: rest => sigExp? rest
  | '-' :: rest => (sigExp? rest).map Neg.neg
  | l => sigExp? l

/-- JS `Number(s)` (the coercion behind `isNaN(s)`) for an already-trimmed
field `s`, on the decimal fragment: `Number("")` is `0`; a full decimal
literal denotes its value; anything else is `NaN` (`none`). -/
def jsToNumber (s : String) : Option ℚ := if s = "" then some 0 else numLit? s

/-- A JS number: an exact rational or `NaN`. -/
inductive JSNum where
  | val (q : ℚ)
  | nan
deriving DecidableEq, Repr

/-- JS `parseFloat(s)` restricted to the strings `parse` actually applies it
to (those with `isNaN(s)` false, i.e. `""` or full decimal literals):
`parseFloat("")` is `NaN`, and on a full literal the longest-prefix parse is
the full parse. -/
def jsParseFloat (s : String) : JSNum :=
  match numLit? s with
  | some q => JSNum.val q
  | none => JSNum.nan

/-- A cell of a parsed row: `typeof cell === 'number'` holds exactly for
`Cell.num` (including `NaN`). -/
inductive Cell where
  | num (x : JSNum)
  | str (s : String)
deriving DecidableEq, Repr

/-- The cell coercion of csvParser.js:47:
`row[header] = isNaN(value) ? value : parseFloat(value)`. -/
def coerceCell (s : String) : Cell :=
  match jsToNumber s with
  | none => Cell.str s
  | some _ => Cell.num (jsParseFloat s)

/-! ## Rows and the parser state -/

/-- A parsed record: a JS object as an ordered key/value list with unique
keys (first-assignment order, later assignments overwrite in place). -/
abbrev Row := List (String × Cell)

/-- JS property assignment `row[k] = v`: overwrites an existing key in place,
otherwise appends. -/
def objInsert (row : Row) (k : String) (v : Cell) : Row :=
  match row with
  | [] => [(k, v)]
  | (k', v') :: rest => if k' = k then (k, v) :: rest else (k', v') :: objInsert rest k v

/-- JS property read `row[k]`: `none` is `undefined`. -/
def objGet (row : Row) (k : String) : Option Cell :=
  match row with
  | [] => none
  | (k', v) :: rest => if k' = k then some v else objGet rest k

/-- Builds one record (csvParser.js:43-48): for each header in order, assign
the coerced field at the same index. -/
def buildRow (headers values : List String) : Row :=
  (headers.zip values).foldl (fun r hv => objInsert r hv.1 (coerceCell hv.2)) []

/-- The parser's ambient state: `this.headers` and `this.data`. -/
structure PState where
  headers : List String
  data : List Row
deriving DecidableEq, Repr

/-- The three `throw new Error(...)` sites of `CSVParser.parse`. -/
inductive ParseError where
  | emptyInput    -- 'CSV file is empty'           (csvParser.js:21)
  | noHeaders     -- 'No headers found in CSV'     (csvParser.js:28)
  | noData        -- 'No valid data rows found in CSV' (csvParser.js:53)
deriving DecidableEq, Repr

/-- The data-row loop of `parse` (csvParser.js:33-50): each line is trimmed,
blank lines are skipped, a line whose field count differs from the header
count is skipped, and each remaining line becomes a record. -/
def buildRows (headers : List String) (lines : List String) : List Row :=
  lines.filterMap (fun ln =>
    let t := jsTrim ln
    if t = "" then none
    else
      let values := parseCSVLine t
      if values.length = headers.length then some (buildRow headers values) else none)

/-- `CSVParser.parse` (csvParser.js:17-60).  Returns the post-call parser
state paired with the error thrown, if any; mutation order is preserved:
`this.headers` is overwritten before the header check, and `this.data` is
reset before the `noData` check, so a failing call still updates the state
shown in the first component. -/
def parse (csvString : String) (st : PState) : PState × Option ParseError :=
  match jsSplitNL (jsTrim csvString) with
  | [] => (st, some ParseError.emptyInput)
  | l0 :: rest =>
    let headers := parseCSVLine l0
    if headers.length = 0 then ({ st with headers := headers }, some ParseError.noHeaders)
    else
      let data := buildRows headers rest
      if data.length = 0 then ({ headers := headers, data := data }, some ParseError.noData)
      else ({ headers := headers, data := data }, none)

/-- `typeof cell === 'number'` on the result of a property read. -/
def isNumCell : Option Cell → Bool
  | some (Cell.num _) => true
  | _ => false

/-- `CSVParser.getNumericColumns` (csvParser.js:99-105). -/
def getNumericColumns (st : PState) : List String :=
  if st.data.length = 0 then []
  else st.headers.filter (fun h => st.data.any (fun row => isNumCell (objGet row h)))

/-- `CSVParser.getAllColumns` (csvParser.js:111-113). -/
def getAllColumns (st : PState) : List String := st.headers

/-! ## JS numeric operations for the statistics engine -/

/-- JS `+` on numbers: `NaN` propagates. -/
def jsAdd : JSNum → JSNum → JSNum
  | JSNum.val a, JSNum.val b => JSNum.val (a + b)
  | _, _ => JSNum.nan

/-- JS `-` on numbers: `NaN` propagates. -/
def jsSub : JSNum → JSNum → JSNum
  | JSNum.val a, JSNum.val b => JSNum.val (a - b)
  | _, _ => JSNum.nan

/-- JS `*` on numbers: `NaN` propagates. -/
def jsMul : JSNum → JSNum → JSNum
  | JSNum.val a, JSNum.val b => JSNum.val (a * b)
  | _, _ => JSNum.nan

/-- Division by a (positive) length, as in `sum / values.length`. -/
def jsDivNat (a : JSNum) (n : ℕ) : JSNum :=
  match a with
  | JSNum.val q => JSNum.val (q / (n : ℚ))
  | JSNum.nan => JSNum.nan

/-- `values.reduce((a, b) => a + b, 0)`. -/
def jsSum (l : List JSNum) : JSNum := l.foldl jsAdd (JSNum.val 0)

/-- The comparator order of `sort((a, b) => a - b)` on the modelled numbers:
ascending on actual values (comparisons involving `NaN` give an
implementation-defined order in JS; the claims only exercise all-value or
all-`NaN` lists, where any order produced by the comparator coincides). -/
def jsleNum : JSNum → JSNum → Bool
  | JSNum.val a, JSNum.val b => decide (a ≤ b)
  | _, _ => true

/-- Insertion into a list sorted by `jsleNum`. -/
def insertSorted (x : JSNum) : List JSNum → List JSNum
  | [] => [x]
  | y :: ys => if jsleNum x y then x :: y :: ys else y :: insertSorted x ys

/-- `[...values].sort((a, b) => a - b)` (csvParser.js:129): the ascending
reordering of the values. -/
def sortValues (l : List JSNum) : List JSNum := l.foldr insertSorted []

/-- The result of `toFixed(2)`: either the string `"NaN"` or a fixed-point
numeral with the given number of hundredths (`fx 250` is `"2.50"`). -/
inductive Fixed2 where
  | nan
  | fx (hundredths : ℤ)
deriving DecidableEq, Repr

/-- `⌊q⌋` computed by euclidean integer division (kernel-evaluable; equal to
`Int.floor`, see `ratFloor_eq_floor`). -/
def ratFloor (q : ℚ) : ℤ := q.num / (q.den : ℤ)

/-- `round q` (nearest integer, halves up) computed as `⌊q + 1/2⌋`
(kernel-evaluable; equal to Mathlib's `round`, see `roundQ_eq_round`). -/
def roundQ (q : ℚ) : ℤ := ratFloor (q + 1 / 2)

/-- `x.toFixed(2)`: round to the nearest hundredth. -/
def toFixed2 : JSNum → Fixed2
  | JSNum.nan => Fixed2.nan
  | JSNum.val q => Fixed2.fx (roundQ (100 * q))

/-- Fuel-driven integer square root: `isqrtAux fuel n` is the floor square
root of `n` whenever `n ≤ fuel` (see `isqrtAux_spec`), with recursion depth
logarithmic in `n`. -/
def isqrtAux : ℕ → ℕ → ℕ
  | 0, _ => 0
  | fuel + 1, n =>
      if n = 0 then 0
      else
        let r := 2 * isqrtAux fuel (n / 4)
        if (r + 1) * (r + 1) ≤ n then r + 1 else r

/-- Floor integer square root (kernel-evaluable). -/
def isqrt (n : ℕ) : ℕ := isqrtAux n n

/-- Largest natural whose square is at most `q` (for `q ≥ 0`): since
`n ^ 2 ≤ q ↔ n ^ 2 ≤ ⌊q⌋` for integer `n ^ 2`, this is `isqrt ⌊q⌋`. -/
def ratSqrtFloor (q : ℚ) : ℕ := isqrt (Int.toNat (ratFloor q))

/-- `round (100 * √q)` for `q ≥ 0`, computed exactly: with
`n = ⌊√(10000 q)⌋`, the result is `n` when `√(10000 q) < n + 1/2`
(equivalently `40000 q < (2 n + 1) ^ 2`) and `n + 1` otherwise. -/
def sqrtRound2 (q : ℚ) : ℤ :=
  let n := ratSqrtFloor (10000 * q)
  if 40000 * q < ((2 * n + 1 : ℕ) ^ 2 : ℚ) then (n : ℤ) else (n : ℤ) + 1

/-- `Math.sqrt(x).toFixed(2)`: the exact square root rounded to hundredths;
`NaN` for `NaN` or negative input. -/
def jsSqrtFixed2 : JSNum → Fixed2
  | JSNum.nan => Fixed2.nan
  | JSNum.val q => if q < 0 then Fixed2.nan else Fixed2.fx (sqrtRound2 q)

/-- The stats object returned by `getColumnStats`: `min`/`max` are raw
numbers, `mean`/`median`/`stdev` are `toFixed(2)` results. -/
structure Stats where
  count : ℕ
  min : JSNum
  max : JSNum
  mean : Fixed2
  median : Fixed2
  stdev : Fixed2
deriving DecidableEq, Repr

/-- `this.data.map(row => row[columnName]).filter(val => typeof val === 'number')`
(csvParser.js:121-123). -/
def columnValues (st : PState) (columnName : String) : List JSNum :=
  st.data.filterMap (fun row =>
    match objGet row columnName with
    | some (Cell.num x) => some x
    | _ => none)

/-- `CSVParser.calculateStdev` up to the final `Math.sqrt` (csvParser.js:149-153):
the population variance `Σ (v - mean)^2 / n`.  The square root itself is
irrational in general and is taken together with the caller's `toFixed(2)`
by `jsSqrtFixed2`. -/
def calculateVariance (values : List JSNum) (mean : JSNum) : JSNum :=
  jsDivNat (jsSum (values.map (fun v => jsMul (jsSub v mean) (jsSub v mean)))) values.length

/-- `CSVParser.getColumnStats` (csvParser.js:120-141). -/
def getColumnStats (st : PState) (columnName : String) : Option Stats :=
  let values := columnValues st columnName
  if values.length = 0 then none
  else
    let sorted := sortValues values
    let mean := jsDivNat (jsSum values) values.length
    some {
      count := values.length
      min := sorted.headD JSNum.nan
      max := sorted.getLastD JSNum.nan
      mean := toFixed2 mean
      median := toFixed2 (sorted.getD (sorted.length / 2) JSNum.nan)
      stdev := jsSqrtFixed2 (calculateVariance values mean)
    }

/-- `CSVParser.filterByRange` (csvParser.js:162-167): JS `>=`/`<=` are false
on `NaN`, so only actual values in `[min, max]` pass. -/
def filterByRange (st : PState) (columnName : String) (min max : ℚ) : List Row :=
  st.data.filter (fun row =>
    match objGet row columnName with
    | some (Cell.num (JSNum.val q)) => decide (min ≤ q ∧ q ≤ max)
    | _ => false)

/-! ## The CSV writer of the documented dialect -/

/-- Doubles every `"`, the escape of the documented dialect. -/
def escapeQuotes : List Char → List Char
  | [] => []
  | c :: rest => if c = '"' then '"' :: '"' :: escapeQuotes rest else c :: escapeQuotes rest

/-- Modelled from the spec: the repository has no CSV writer, only the
dialect contract of spec §6 ("comma-delimited, double-quote quoting with
`\"\"` escape").  A field containing a comma or a double quote is wrapped in
double quotes with each embedded quote doubled; any other field is written
as-is. -/
def formatField (v : String) : String :=
  if v.data.contains ',' ∨ v.data.contains '"' then
    String.mk ('"' :: (escapeQuotes v.data ++ ['"']))
  else v

/-! ## Mathematical reference quantities (spec §4.2)

These follow the wording of the specification ("mean = (Σ v_i) / n",
"population standard deviation, divide by n") and are used to compare the
statistics engine's output against independent formulas. -/

/-- Arithmetic mean of a list of rationals. -/
def listMean (l : List ℚ) : ℚ := l.sum / l.length

/-- Population variance `Σ (v_i - mean)^2 / n`. -/
def popVariance (l : List ℚ) : ℚ :=
  (l.map (fun v => (v - listMean l) ^ 2)).sum / l.length

/-! ## Basic facts about the embedded primitives -/

theorem splitNLAux_ne_nil (l : List Char) : ∀ cur, splitNLAux l cur ≠ [] := by
  induction l with
  | nil => intro cur; simp [splitNLAux]
  | cons c rest ih =>
      intro cur
      by_cases hc : c = '\n' <;> simp [splitNLAux, hc, ih]

theorem jsSplitNL_ne_nil (s : String) : jsSplitNL s ≠ [] :=
  splitNLAux_ne_nil s.data []

theorem parseLineAux_length_lt (l : List Char) (inQ : Bool) (cur : List Char)
    (acc : List String) : acc.length < (parseLineAux l inQ cur acc).length := by
  induction l, inQ, cur, acc using parseLineAux.induct with
  | case1 inQ cur acc => simp [parseLineAux.eq_1]
  | case2 rest cur acc ih => rw [parseLineAux.eq_2]; exact ih
  | case3 rest inQ cur acc hno ih => rw [parseLineAux.eq_3 inQ cur acc rest hno]; exact ih
  | case4 rest cur acc ih =>
      rw [parseLineAux.eq_4]
      exact lt_of_le_of_lt (by simp) ih
  | case5 c rest inQ cur acc h1 h2 h3 ih =>
      rw [parseLineAux.eq_5 inQ cur acc c rest h2 h1 h3]; exact ih

theorem parseCSVLine_length_pos (line : String) : 0 < (parseCSVLine line).length :=
  Nat.lt_of_le_of_lt (Nat.zero_le _) (parseLineAux_length_lt line.data false [] [])

/-- The dead `lines.length === 0` branch: `split` always yields at least one
line, so `parse` can never throw the empty-input error. -/
theorem parse_ne_emptyInput (s : String) (st : PState) :
    (parse s st).2 ≠ some ParseError.emptyInput := by
  unfold parse
  rcases h : jsSplitNL (jsTrim s) with _ | ⟨l0, rest⟩
  · exact absurd h (jsSplitNL_ne_nil _)
  · simp only
    split_ifs <;> simp

/-! ## Records: keys and reads -/

theorem map_fst_objInsert (k : String) (v : Cell) :
    ∀ row : Row, k ∉ row.map Prod.fst →
      (objInsert row k v).map Prod.fst = row.map Prod.fst ++ [k] := by
  intro row
  induction row with
  | nil => intro _; simp [objInsert]
  | cons p rest ih =>
      obtain ⟨k', v'⟩ := p
      intro hk
      simp only [List.map_cons, List.mem_cons] at hk
      push_neg at hk
      have hne : ¬ k' = k := fun h => hk.1 h.symm
      simp [objInsert, hne, ih hk.2]

theorem objGet_eq_none (k : String) :
    ∀ row : Row, k ∉ row.map Prod.fst → objGet row k = none := by
  intro row
  induction row with
  | nil => intro _; rfl
  | cons p rest ih =>
      obtain ⟨k', v'⟩ := p
      intro hk
      simp only [List.map_cons, List.mem_cons] at hk
      push_neg at hk
      have hne : ¬ k' = k := fun h => hk.1 h.symm
      simp [objGet, hne, ih hk.2]

theorem foldl_objInsert_map_fst :
    ∀ (pairs : List (String × String)) (r : Row),
      (pairs.map Prod.fst).Nodup →
      (∀ k ∈ pairs.map Prod.fst, k ∉ r.map Prod.fst) →
      ((pairs.foldl (fun row hv => objInsert row hv.1 (coerceCell hv.2)) r).map Prod.fst)
        = r.map Prod.fst ++ pairs.map Prod.fst := by
  intro pairs
  induction pairs with
  | nil => intro r _ _; simp
  | cons hv pairs ih =>
      obtain ⟨k, v⟩ := hv
      intro r hnd hdisj
      simp only [List.map_cons, List.nodup_cons] at hnd
      simp only [List.map_cons, List.mem_cons] at hdisj
      have hk : k ∉ r.map Prod.fst := hdisj k (Or.inl rfl)
      have hins := map_fst_objInsert k (coerceCell v) r hk
      simp only [List.foldl_cons]
      rw [ih (objInsert r k (coerceCell v)) hnd.2]
      · rw [hins, List.append_assoc]
        simp
      · intro k' hk'
        rw [hins]
        simp only [List.mem_append, List.mem_singleton]
        rintro (hmem | hkk)
        · exact hdisj k' (Or.inr hk') hmem
        · exact hnd.1 (hkk ▸ hk')

/-- With pairwise-distinct headers and a matching number of fields, a built
record's key list is exactly the header list. -/
theorem buildRow_map_fst (headers values : List String)
    (hnd : headers.Nodup) (hlen : values.length = headers.length) :
    (buildRow headers values).map Prod.fst = headers := by
  unfold buildRow
  have hz : (headers.zip values).map Prod.fst = headers :=
    List.map_fst_zip _ _ (le_of_eq hlen.symm)
  rw [foldl_objInsert_map_fst (headers.zip values) [] (by rw [hz]; exact hnd) (by simp)]
  rw [hz]
  simp

/-! ## The data-row loop -/

theorem mem_buildRows {headers lines : List String} {row : Row}
    (hrow : row ∈ buildRows headers lines) :
    ∃ ln ∈ lines, jsTrim ln ≠ "" ∧ (parseCSVLine (jsTrim ln)).length = headers.length ∧
      row = buildRow headers (parseCSVLine (jsTrim ln)) := by
  unfold buildRows at hrow
  rw [List.mem_filterMap] at hrow
  obtain ⟨ln, hln, hsome⟩ := hrow
  by_cases ht : jsTrim ln = ""
  · simp [ht] at hsome
  · by_cases hl : (parseCSVLine (jsTrim ln)).length = headers.length
    · refine ⟨ln, hln, ht, hl, ?_⟩
      simp only [ht, if_false, hl, if_true, Option.some.injEq] at hsome
      exact hsome.symm
    · simp [ht, hl] at hsome

theorem buildRows_length (headers lines : List String)
    (hw : ∀ ln ∈ lines, jsTrim ln ≠ "" → (parseCSVLine (jsTrim ln)).length = headers.length) :
    (buildRows headers lines).length
      = (lines.filter (fun ln => decide (jsTrim ln ≠ ""))).length := by
  induction lines with
  | nil => rfl
  | cons ln lines ih =>
      have hrec := ih (fun l hl => hw l (List.mem_cons_of_mem _ hl))
      by_cases ht : jsTrim ln = ""
      · simp only [buildRows] at hrec ⊢
        rw [List.filterMap_cons, List.filter_cons]
        simp [ht, hrec]
      · have hlen := hw ln (List.mem_cons_self _ _) ht
        simp only [buildRows] at hrec ⊢
        rw [List.filterMap_cons, List.filter_cons]
        simp [ht, hlen, hrec]

theorem buildRows_ne_nil (headers lines : List String)
    (hw : ∀ ln ∈ lines, jsTrim ln ≠ "" → (parseCSVLine (jsTrim ln)).length = headers.length)
    (hne : ∃ ln ∈ lines, jsTrim ln ≠ "") :
    buildRows headers lines ≠ [] := by
  obtain ⟨ln, hln, ht⟩ := hne
  have : ln ∈ lines.filter (fun ln => decide (jsTrim ln ≠ "")) :=
    List.mem_filter.mpr ⟨hln, by simpa using ht⟩
  have hpos : 0 < (lines.filter (fun ln => decide (jsTrim ln ≠ ""))).length :=
    List.length_pos.mpr (List.ne_nil_of_mem this)
  rw [← List.length_pos, buildRows_length headers lines hw]
  exact hpos

/-! ## The statistics engine: when stats exist -/

theorem columnValues_eq_nil_iff (st : PState) (c : String) :
    columnValues st c = [] ↔ ∀ row ∈ st.data, isNumCell (objGet row c) = false := by
  unfold columnValues
  rw [List.filterMap_eq_nil_iff]
  refine forall_congr' fun row => forall_congr' fun _ => ?_
  cases h : objGet row c with
  | none => simp [isNumCell]
  | some cell => cases cell <;> simp [isNumCell]

theorem getColumnStats_eq_none_iff (st : PState) (c : String) :
    getColumnStats st c = none ↔ ∀ row ∈ st.data, isNumCell (objGet row c) = false := by
  rw [← columnValues_eq_nil_iff]
  simp only [getColumnStats]
  split_ifs with h
  · simp [List.length_eq_zero.mp h]
  · rw [List.length_eq_zero] at h
    simp [h]

theorem mem_columnValues {st : PState} {c : String} {x : JSNum} {row : Row}
    (hrow : row ∈ st.data) (hget : objGet row c = some (Cell.num x)) :
    x ∈ columnValues st c := by
  unfold columnValues
  rw [List.mem_filterMap]
  exact ⟨row, hrow, by simp [hget]⟩

theorem getColumnStats_of_mem {st : PState} {c : String} {x : JSNum} {row : Row}
    (hrow : row ∈ st.data) (hget : objGet row c = some (Cell.num x)) :
    ∃ stats, getColumnStats st c = some stats ∧ 1 ≤ stats.count := by
  have hx := mem_columnValues hrow hget
  have hpos : 0 < (columnValues st c).length :=
    List.length_pos.mpr (List.ne_nil_of_mem hx)
  unfold getColumnStats
  rw [if_neg (Nat.pos_iff_ne_zero.mp hpos)]
  exact ⟨_, rfl, by simpa using hpos⟩

/-! ## The field-splitter on quoted output -/

theorem parseLineAux_openQuote (l : List Char) (cur : List Char) (acc : List String) :
    parseLineAux ('"' :: l) false cur acc = parseLineAux l true cur acc := by
  rw [parseLineAux.eq_3 false cur acc l (fun r h1 h2 => by exact absurd h2 (by simp))]
  rfl

theorem parseLineAux_quoted (v : List Char) :
    ∀ cur acc, parseLineAux (escapeQuotes v ++ ['"']) true cur acc
      = acc ++ [String.mk (jsTrimList (cur ++ v))] := by
  induction v with
  | nil =>
      intro cur acc
      show parseLineAux ['"'] true cur acc = _
      rw [parseLineAux.eq_3 true cur acc [] (by rintro r ⟨⟩)]
      rw [parseLineAux.eq_1]
      simp
  | cons c v ih =>
      intro cur acc
      by_cases hc : c = '"'
      · subst hc
        rw [show escapeQuotes ('"' :: v) = '"' :: '"' :: escapeQuotes v from by
              simp [escapeQuotes]]
        rw [List.cons_append, List.cons_append, parseLineAux.eq_2]
        rw [ih (cur ++ ['"']) acc]
        simp
      · rw [show escapeQuotes (c :: v) = c :: escapeQuotes v from by
              simp [escapeQuotes, hc]]
        rw [List.cons_append]
        by_cases hcc : c = ','
        · subst hcc
          rw [parseLineAux.eq_5 true cur acc ',' (escapeQuotes v ++ ['"'])
                (fun h => hc h)
                (fun r h1 _ _ => hc h1)
                (fun _ h => by exact absurd h (by simp))]
          rw [ih (cur ++ [',']) acc]
          simp
        · rw [parseLineAux.eq_5 true cur acc c (escapeQuotes v ++ ['"'])
                (fun h => hc h)
                (fun r h1 _ _ => hc h1)
                (fun h _ => hcc h)]
          rw [ih (cur ++ [c]) acc]
          simp

/-- Round trip of the documented quoting rule through the field-splitter, for
a field value with no leading or trailing whitespace. -/
theorem parseCSVLine_formatField (v : String) (hv : jsTrim v = v)
    (hq : v.data.contains ',' ∨ v.data.contains '"') :
    parseCSVLine (formatField v) = [v] := by
  unfold formatField
  rw [if_pos hq]
  show parseLineAux ('"' :: (escapeQuotes v.data ++ ['"'])) false [] [] = [v]
  rw [parseLineAux_openQuote, parseLineAux_quoted]
  unfold jsTrim at hv
  simpa using hv

/-! ## The statistics engine on all-numeric columns -/

theorem foldl_jsAdd_map_val (l : List ℚ) :
    ∀ q : ℚ, (l.map JSNum.val).foldl jsAdd (JSNum.val q) = JSNum.val (q + l.sum) := by
  induction l with
  | nil => intro q; simp
  | cons a l ih =>
      intro q
      simp only [List.map_cons, List.foldl_cons, jsAdd]
      rw [ih (q + a), List.sum_cons, add_assoc]

theorem jsSum_map_val (l : List ℚ) : jsSum (l.map JSNum.val) = JSNum.val l.sum := by
  unfold jsSum
  rw [foldl_jsAdd_map_val, zero_add]

theorem insertSorted_map_val (a : ℚ) (l : List ℚ) :
    insertSorted (JSNum.val a) (l.map JSNum.val)
      = (List.orderedInsert (· ≤ ·) a l).map JSNum.val := by
  induction l with
  | nil => rfl
  | cons b l ih =>
      simp only [List.map_cons, insertSorted, List.orderedInsert, jsleNum]
      by_cases hab : a ≤ b
      · simp [hab]
      · simp [hab, ih]

theorem sortValues_map_val (l : List ℚ) :
    sortValues (l.map JSNum.val) = (List.insertionSort (· ≤ ·) l).map JSNum.val := by
  induction l with
  | nil => rfl
  | cons a l ih =>
      simp only [List.map_cons, sortValues, List.foldr_cons, List.insertionSort]
      rw [show (List.map JSNum.val l).foldr insertSorted [] = sortValues (l.map JSNum.val)
            from rfl]
      rw [ih, insertSorted_map_val]

theorem calculateVariance_map_val (l : List ℚ) (m : ℚ) :
    calculateVariance (l.map JSNum.val) (JSNum.val m)
      = JSNum.val ((l.map fun v => (v - m) ^ 2).sum / l.length) := by
  unfold calculateVariance
  rw [List.map_map]
  have hcomp : ((fun v => jsMul (jsSub v (JSNum.val m)) (jsSub v (JSNum.val m))) ∘ JSNum.val)
      = (JSNum.val ∘ fun v => (v - m) ^ 2) := by
    funext v
    simp [jsMul, jsSub, Function.comp, pow_two]
  rw [hcomp, ← List.map_map, jsSum_map_val]
  simp [jsDivNat]

theorem headD_map_val (l : List ℚ) (hl : l ≠ []) :
    (l.map JSNum.val).headD JSNum.nan = JSNum.val (l.getD 0 0) := by
  cases l with
  | nil => exact absurd rfl hl
  | cons a l => rfl

theorem getLastD_map_val (l : List ℚ) (hl : l ≠ []) :
    ∀ d : JSNum, (l.map JSNum.val).getLastD d = JSNum.val (l.getD (l.length - 1) 0) := by
  induction l with
  | nil => exact absurd rfl hl
  | cons a l ih =>
      intro d
      cases l with
      | nil => rfl
      | cons b t =>
          rw [List.map_cons, List.getLastD_cons]
          rw [ih (by simp)]
          rfl

theorem getD_map_val (l : List ℚ) (i : ℕ) (hi : i < l.length) :
    (l.map JSNum.val).getD i JSNum.nan = JSNum.val (l.getD i 0) := by
  rw [List.getD_eq_getElem?_getD, List.getD_eq_getElem?_getD, List.getElem?_map,
      List.getElem?_eq_getElem hi]
  rfl

theorem popVariance_nonneg (l : List ℚ) : 0 ≤ popVariance l := by
  apply div_nonneg
  · apply List.sum_nonneg
    intro x hx
    obtain ⟨v, _, rfl⟩ := List.mem_map.mp hx
    exact sq_nonneg _
  · exact Nat.cast_nonneg _

/-- `getColumnStats` on a column whose gathered values are the actual numbers
`l`: every field of the result against an independent formula over `l` and
its ascending sort. -/
theorem getColumnStats_map_val (st : PState) (c : String) (l : List ℚ)
    (hv : columnValues st c = l.map JSNum.val) (hl : l ≠ []) :
    getColumnStats st c = some {
      count := l.length
      min := JSNum.val ((List.insertionSort (· ≤ ·) l).getD 0 0)
      max := JSNum.val ((List.insertionSort (· ≤ ·) l).getD (l.length - 1) 0)
      mean := Fixed2.fx (roundQ (100 * listMean l))
      median := Fixed2.fx (roundQ (100 * (List.insertionSort (· ≤ ·) l).getD (l.length / 2) 0))
      stdev := Fixed2.fx (sqrtRound2 (popVariance l)) } := by
  have hlpos : 0 < l.length := List.length_pos.mpr hl
  have hperm := List.perm_insertionSort (· ≤ ·) l
  have hSlen : (List.insertionSort (· ≤ ·) l).length = l.length := hperm.length_eq
  have hSne : List.insertionSort (· ≤ ·) l ≠ [] := by
    intro h
    rw [h] at hSlen
    simp at hSlen
    omega

  have hmean : jsDivNat (JSNum.val l.sum) l.length = JSNum.val (listMean l) := by
    simp [jsDivNat, listMean]
  have h0 : 0 ≤ popVariance l := popVariance_nonneg l
  simp only [getColumnStats, hv]
  rw [if_neg (by simpa using Nat.pos_iff_ne_zero.mp hlpos)]
  simp only [sortValues_map_val, jsSum_map_val, List.length_map, hSlen, hmean,
    calculateVariance_map_val]
  rw [headD_map_val _ hSne, getLastD_map_val _ hSne,
      getD_map_val (List.insertionSort (· ≤ ·) l) (l.length / 2)
        (by rw [hSlen]; exact Nat.div_lt_self hlpos one_lt_two)]
  have hpv : (l.map fun v => (v - listMean l) ^ 2).sum / (l.length : ℚ) = popVariance l := rfl
  simp only [toFixed2, jsSqrtFixed2, hSlen, hpv]
  rw [if_neg (not_lt.mpr h0)]

/-! ## The rounding and square-root primitives agree with the mathematical
operations they stand for -/

theorem ratFloor_eq_floor (q : ℚ) : ratFloor q = ⌊q⌋ := Rat.floor_def.symm

theorem roundQ_eq_round (q : ℚ) : roundQ q = round q := by
  rw [roundQ, ratFloor_eq_floor, round_eq]

theorem isqrtAux_spec : ∀ fuel n : ℕ, n ≤ fuel →
    isqrtAux fuel n * isqrtAux fuel n ≤ n ∧ n < (isqrtAux fuel n + 1) * (isqrtAux fuel n + 1) := by
  intro fuel
  induction fuel with
  | zero =>
      intro n hn
      interval_cases n
      simp [isqrtAux]
  | succ fuel ih =>
      intro n hn
      by_cases h0 : n = 0
      · subst h0
        simp [isqrtAux]
      · have hn4 : n / 4 ≤ fuel := by
          have : n / 4 < n := Nat.div_lt_self (Nat.pos_of_ne_zero h0) (by omega)
          omega
        obtain ⟨ihl, ihr⟩ := ih (n / 4) hn4
        have hmod := Nat.div_add_mod n 4
        have hmlt : n % 4 < 4 := Nat.mod_lt _ (by omega)
        simp only [isqrtAux, h0, if_false]
        set s := isqrtAux fuel (n / 4) with hs
        have hexp : (2 * s + 1 + 1) * (2 * s + 1 + 1) = 4 * ((s + 1) * (s + 1)) := by ring
        by_cases hstep : (2 * s + 1) * (2 * s + 1) ≤ n
        · rw [if_pos hstep]
          refine ⟨hstep, ?_⟩
          rw [hexp]
          generalize hT : (s + 1) * (s + 1) = T at ihr
          omega
        · rw [if_neg hstep]
          constructor
          · have h4 : 4 * (s * s) ≤ 4 * (n / 4) := by omega
            have hexp2 : 2 * s * (2 * s) = 4 * (s * s) := by ring
            omega
          · omega

theorem isqrt_spec (n : ℕ) :
    isqrt n * isqrt n ≤ n ∧ n < (isqrt n + 1) * (isqrt n + 1) :=
  isqrtAux_spec n n le_rfl

/-- The kernel-friendly `sqrtRound2` is the exact real square root scaled to
hundredths and rounded to the nearest integer. -/
theorem sqrtRound2_eq_round_sqrt (q : ℚ) (hq : 0 ≤ q) :
    sqrtRound2 q = round (100 * Real.sqrt (q : ℝ)) := by
  have hN : (0 : ℚ) ≤ 10000 * q := by positivity
  have hfl0 : (0 : ℤ) ≤ ⌊(10000 * q : ℚ)⌋ := Int.floor_nonneg.mpr hN
  set m : ℕ := Int.toNat (ratFloor (10000 * q)) with hm
  have hmQ : (m : ℤ) = ⌊(10000 * q : ℚ)⌋ := by
    rw [hm, ratFloor_eq_floor]
    exact Int.toNat_of_nonneg hfl0
  set n : ℕ := isqrt m with hn
  obtain ⟨hle, hlt⟩ := isqrt_spec m
  -- the real number whose rounding we compute
  set x : ℝ := Real.sqrt ((10000 * q : ℚ) : ℝ) with hx
  have hxeq : x = 100 * Real.sqrt (q : ℝ) := by
    rw [hx]
    push_cast
    rw [show ((10000 : ℝ) * q) = (100 : ℝ) ^ 2 * q by norm_num,
        Real.sqrt_mul (by positivity), Real.sqrt_sq (by norm_num)]
  have hx0 : 0 ≤ x := Real.sqrt_nonneg _
  have hmn : (n * n : ℕ) ≤ m := hle
  have hmn1 : m + 1 ≤ (n + 1) * (n + 1) := hlt
  have hfloorle : ((m : ℚ)) ≤ 10000 * q := by
    have := Int.floor_le (10000 * q : ℚ)
    rw [← hmQ] at this
    exact_mod_cast this
  have hfloorlt : (10000 * q : ℚ) < (m : ℚ) + 1 := by
    have := Int.lt_floor_add_one (10000 * q : ℚ)
    rw [← hmQ] at this
    exact_mod_cast this
  -- n ≤ x
  have hnx : (n : ℝ) ≤ x := by
    rw [hx, Real.le_sqrt (by positivity) (by exact_mod_cast hN)]
    have h1 : ((n : ℚ) ^ 2) ≤ 10000 * q := by
      have h1a : ((n * n : ℕ) : ℚ) ≤ (m : ℚ) := by exact_mod_cast hmn
      push_cast at h1a
      nlinarith [h1a, hfloorle]
    calc ((n : ℝ)) ^ 2 = (((n : ℚ) ^ 2 : ℚ) : ℝ) := by push_cast; ring
      _ ≤ ((10000 * q : ℚ) : ℝ) := by exact_mod_cast h1
  -- x < n + 1
  have hxn1 : x < (n : ℝ) + 1 := by
    rw [hx]
    have hpos : (0 : ℝ) < (n : ℝ) + 1 := by positivity
    rw [Real.sqrt_lt' hpos]
    have h3 : (10000 * q : ℚ) < ((n : ℚ) + 1) ^ 2 := by
      have h3a : ((m + 1 : ℕ) : ℚ) ≤ (((n + 1) * (n + 1) : ℕ) : ℚ) := by exact_mod_cast hmn1
      push_cast at h3a
      nlinarith [h3a, hfloorlt]
    calc ((10000 * q : ℚ) : ℝ) < (((((n : ℚ) + 1) ^ 2 : ℚ)) : ℝ) := by exact_mod_cast h3
      _ = ((n : ℝ) + 1) ^ 2 := by push_cast; ring
  have hround : sqrtRound2 q
      = if 40000 * q < (((2 * n + 1 : ℕ)) ^ 2 : ℚ) then (n : ℤ) else (n : ℤ) + 1 := by
    rw [sqrtRound2]
    rfl
  rw [round_eq, ← hxeq, hround]
  by_cases hcase : 40000 * q < (((2 * n + 1 : ℕ)) ^ 2 : ℚ)
  · rw [if_pos hcase]
    have hq2 : (10000 * q : ℚ) < ((n : ℚ) + 1 / 2) ^ 2 := by
      push_cast at hcase
      nlinarith [hcase]
    have hxlt : x < (n : ℝ) + 1 / 2 := by
      rw [hx]
      have hpos : (0 : ℝ) < (n : ℝ) + 1 / 2 := by positivity
      rw [Real.sqrt_lt' hpos]
      calc ((10000 * q : ℚ) : ℝ) < (((((n : ℚ) + 1 / 2) ^ 2 : ℚ)) : ℝ) := by exact_mod_cast hq2
        _ = ((n : ℝ) + 1 / 2) ^ 2 := by push_cast; ring
    symm
    rw [Int.floor_eq_iff]
    constructor
    · push_cast
      linarith
    · push_cast
      linarith
  · rw [if_neg hcase]
    push_neg at hcase
    have hq3 : ((n : ℚ) + 1 / 2) ^ 2 ≤ 10000 * q := by
      push_cast at hcase
      nlinarith [hcase]
    have hxge : (n : ℝ) + 1 / 2 ≤ x := by
      rw [hx, show ((n : ℝ) + 1 / 2) = (((n : ℚ) + 1 / 2 : ℚ) : ℝ) by push_cast; ring,
          Real.le_sqrt (by positivity) (by exact_mod_cast hN)]
      calc (((n : ℚ) + 1 / 2 : ℚ) : ℝ) ^ 2 = (((((n : ℚ) + 1 / 2) ^ 2 : ℚ)) : ℝ) := by
            push_cast; ring
        _ ≤ ((10000 * q : ℚ) : ℝ) := by exact_mod_cast hq3
    symm
    rw [Int.floor_eq_iff]
    constructor
    · push_cast
      linarith
    · push_cast
      linarith

/-! # The claims -/

/-- C1 counterexample: in `"a,b\n,1\n,2"` the raw empty field is coerced to
the number `NaN` — not to the string `""` — because JS `isNaN("")` is false
(`Number("")` is `0`) while `parseFloat("")` is `NaN`; and `getColumnStats`
on that column counts those cells instead of excluding them (the claim would
make the stats absent). -/
theorem claim_C1_counterexample :
    coerceCell "" = Cell.num JSNum.nan ∧
    coerceCell "" ≠ Cell.str "" ∧
    ((parse "a,b\n,1\n,2" ⟨[], []⟩).1.data.map (fun r => objGet r "a")
      = [some (Cell.num JSNum.nan), some (Cell.num JSNum.nan)]) ∧
    getColumnStats (parse "a,b\n,1\n,2" ⟨[], []⟩).1 "a" ≠ none := by
  with_unfolding_all decide

/-- C1 (amended): for every parsed input, a raw field that trims to the empty
string is coerced to the number `NaN` (not to a string), and such cells are
counted in the numeric aggregates computed by `columnStats` (the column's
stats are present, with count at least 1) rather than excluded. -/
theorem claim_C1 :
    (∀ s : String, jsTrim s = "" → coerceCell (jsTrim s) = Cell.num JSNum.nan) ∧
    (∀ (st : PState) (c : String), ∀ row ∈ st.data,
      objGet row c = some (Cell.num JSNum.nan) →
      ∃ stats, getColumnStats st c = some stats ∧ 1 ≤ stats.count) := by
  constructor
  · intro s hs
    rw [hs]
    with_unfolding_all decide
  · intro st c row hrow hget
    exact getColumnStats_of_mem hrow hget

theorem claim_C1_witness :
    jsTrim " " = "" ∧ coerceCell (jsTrim " ") = Cell.num JSNum.nan ∧
    (getColumnStats ⟨["a"], [[("a", Cell.num JSNum.nan)]]⟩ "a").isSome = true := by
  refine ⟨by decide, claim_C1.1 " " (by decide), ?_⟩
  obtain ⟨stats, hst, -⟩ := claim_C1.2 ⟨["a"], [[("a", Cell.num JSNum.nan)]]⟩ "a"
      [("a", Cell.num JSNum.nan)] (by decide) (by decide)
  rw [hst]
  rfl

/-- C2: an empty or whitespace-only input does NOT fail with the empty-input
error: `split('\n')` always returns at least one element, so the
`lines.length === 0` check is unreachable and such inputs fall through to the
no-data error.  The third conjunct shows the empty-input error can never be
thrown on any input and any prior state. -/
theorem claim_C2 :
    (parse "" ⟨[], []⟩).2 = some ParseError.noData ∧
    (parse " \t \n  " ⟨[], []⟩).2 = some ParseError.noData ∧
    ∀ (s : String) (st : PState), (parse s st).2 ≠ some ParseError.emptyInput :=
  ⟨by decide, by decide, parse_ne_emptyInput⟩

/-- C3: a failed parse does NOT leave the previously loaded table untouched:
parsing `"x,y\nz"` (whose only data line is skipped for width mismatch, so
the call throws the no-data error) over a loaded table overwrites the stored
headers with `["x", "y"]` and clears the stored rows. -/
theorem claim_C3 :
    (parse "x,y\nz" ⟨["a"], [[("a", Cell.num (JSNum.val 1))]]⟩).2
      = some ParseError.noData ∧
    (parse "x,y\nz" ⟨["a"], [[("a", Cell.num (JSNum.val 1))]]⟩).1
      = ⟨["x", "y"], []⟩ ∧
    (⟨["x", "y"], []⟩ : PState) ≠ ⟨["a"], [[("a", Cell.num (JSNum.val 1))]]⟩ := by
  with_unfolding_all decide

/-- C4 counterexample: `"a,b"` (no data lines, so every data line vacuously
has the header's field count) makes `parse` throw the no-data error instead
of succeeding; and with duplicate headers, `"a,a\n1,2"` parses to a record
with a single key, not `headers.length = 2` keys. -/
theorem claim_C4_counterexample :
    (parse "a,b" ⟨[], []⟩).2 = some ParseError.noData ∧
    (parse "a,a\n1,2" ⟨[], []⟩).1.data.map (fun r => (r.map Prod.fst).length) = [1] ∧
    (parse "a,a\n1,2" ⟨[], []⟩).1.headers.length = 2 := by
  with_unfolding_all decide

/-- C4 (amended): for every CSV text whose header line has pairwise-distinct
fields, with at least one non-blank data line, and whose every non-blank data
line has the same field count as the header line, `parse` succeeds, the
number of rows equals the number of non-blank data lines, and every record's
key list is exactly the header list. -/
theorem claim_C4 (s : String) (st : PState) (l0 : String) (rest : List String)
    (hsplit : jsSplitNL (jsTrim s) = l0 :: rest)
    (hnodup : (parseCSVLine l0).Nodup)
    (hne : ∃ ln ∈ rest, jsTrim ln ≠ "")
    (hw : ∀ ln ∈ rest, jsTrim ln ≠ "" →
      (parseCSVLine (jsTrim ln)).length = (parseCSVLine l0).length) :
    (parse s st).2 = none ∧
    (parse s st).1.headers = parseCSVLine l0 ∧
    (parse s st).1.data.length
      = (rest.filter (fun ln => decide (jsTrim ln ≠ ""))).length ∧
    ∀ row ∈ (parse s st).1.data, row.map Prod.fst = parseCSVLine l0 := by
  have hh : ¬ (parseCSVLine l0).length = 0 :=
    Nat.pos_iff_ne_zero.mp (parseCSVLine_length_pos l0)
  have hbne : buildRows (parseCSVLine l0) rest ≠ [] := buildRows_ne_nil _ _ hw hne
  have hblen : ¬ (buildRows (parseCSVLine l0) rest).length = 0 := by
    simpa [List.length_eq_zero] using hbne
  unfold parse
  rw [hsplit]
  simp only [if_neg hh, if_neg hblen]
  refine ⟨trivial, trivial, buildRows_length _ _ hw, ?_⟩
  intro row hrow
  obtain ⟨ln, _, hblank, hlen, hrw⟩ := mem_buildRows hrow
  rw [hrw]
  exact buildRow_map_fst _ _ hnodup hlen

theorem claim_C4_witness : (parse "a,b\n1,2\n\n3,4" ⟨[], []⟩).2 = none :=
  (claim_C4 "a,b\n1,2\n\n3,4" ⟨[], []⟩ "a,b" ["1,2", "", "3,4"]
    (by decide) (by decide) ⟨"1,2", by decide, by decide⟩ (by decide)).1

/-- C5: `columnStats` on the column `[1, 2, 3, 4]` yields count 4, min 1,
max 4, mean 2.50, median 3.00 (the element at index 2 = ⌊4/2⌋ of the
ascending sort, the upper middle) and stdev 1.12; and in general, for a
column whose gathered values are the actual numbers `l` with ascending
reordering `l'`, the median is `l'` at index ⌊n/2⌋ and the stdev is the
population (divide by n) standard deviation, each rounded to two decimals
(`Fixed2.fx k` is the `toFixed(2)` numeral with `k` hundredths). -/
theorem claim_C5 :
    (getColumnStats ⟨["v"], [[("v", Cell.num (JSNum.val 1))], [("v", Cell.num (JSNum.val 2))],
        [("v", Cell.num (JSNum.val 3))], [("v", Cell.num (JSNum.val 4))]]⟩ "v"
      = some ⟨4, JSNum.val 1, JSNum.val 4, Fixed2.fx 250, Fixed2.fx 300, Fixed2.fx 112⟩) ∧
    ∀ (st : PState) (c : String) (l l' : List ℚ),
      columnValues st c = l.map JSNum.val → l ≠ [] →
      l'.Perm l → l'.Sorted (· ≤ ·) →
      getColumnStats st c = some {
        count := l.length
        min := JSNum.val (l'.getD 0 0)
        max := JSNum.val (l'.getD (l.length - 1) 0)
        mean := Fixed2.fx (round (100 * listMean l))
        median := Fixed2.fx (round (100 * l'.getD (l.length / 2) 0))
        stdev := Fixed2.fx (round (100 * Real.sqrt ((popVariance l : ℚ) : ℝ))) } := by
  constructor
  · with_unfolding_all decide
  · intro st c l l' hv hl hperm hsorted
    have hLeq : l' = List.insertionSort (· ≤ ·) l :=
      List.eq_of_perm_of_sorted
        (hperm.trans (List.perm_insertionSort (· ≤ ·) l).symm) hsorted
        (List.sorted_insertionSort (· ≤ ·) l)
    rw [getColumnStats_map_val st c l hv hl, hLeq]
    simp only [roundQ_eq_round, sqrtRound2_eq_round_sqrt _ (popVariance_nonneg l)]

theorem claim_C5_witness :
    getColumnStats ⟨["v"], [[("v", Cell.num (JSNum.val 1))], [("v", Cell.num (JSNum.val 2))],
        [("v", Cell.num (JSNum.val 3))], [("v", Cell.num (JSNum.val 4))]]⟩ "v"
      = some {
        count := (4 : ℕ)
        min := JSNum.val (([1, 2, 3, 4] : List ℚ).getD 0 0)
        max := JSNum.val (([1, 2, 3, 4] : List ℚ).getD 3 0)
        mean := Fixed2.fx (round (100 * listMean [1, 2, 3, 4]))
        median := Fixed2.fx (round (100 * ([1, 2, 3, 4] : List ℚ).getD 2 0))
        stdev := Fixed2.fx (round (100 * Real.sqrt ((popVariance [1, 2, 3, 4] : ℚ) : ℝ))) } :=
  claim_C5.2 ⟨["v"], [[("v", Cell.num (JSNum.val 1))], [("v", Cell.num (JSNum.val 2))],
      [("v", Cell.num (JSNum.val 3))], [("v", Cell.num (JSNum.val 4))]]⟩ "v"
    [1, 2, 3, 4] [1, 2, 3, 4]
    (by with_unfolding_all decide) (by decide)
    (List.Perm.refl _) (by decide)

/-- C6: `"a,b\n1,2\n1,2,3\n4,5"` parses successfully to exactly the two rows
`{a:1, b:2}` and `{a:4, b:5}`; the width-3 line is skipped without error. -/
theorem claim_C6 :
    parse "a,b\n1,2\n1,2,3\n4,5" ⟨[], []⟩
      = (⟨["a", "b"], [[("a", Cell.num (JSNum.val 1)), ("b", Cell.num (JSNum.val 2))],
                       [("a", Cell.num (JSNum.val 4)), ("b", Cell.num (JSNum.val 5))]]⟩,
         none) := by
  with_unfolding_all decide

/-- C7: `numericColumnNames` returns exactly the headers whose column has at
least one numeric cell, in original header order (it is a sublist of the
headers); in particular the column with cells `[1, "x", 3]` is included. -/
theorem claim_C7 :
    (∀ (st : PState) (c : String),
      c ∈ getNumericColumns st ↔
        c ∈ st.headers ∧ ∃ row ∈ st.data, isNumCell (objGet row c) = true) ∧
    (∀ st : PState, List.Sublist (getNumericColumns st) st.headers) ∧
    getNumericColumns ⟨["site", "a"],
      [[("site", Cell.str "x"), ("a", Cell.num (JSNum.val 1))],
       [("site", Cell.str "y"), ("a", Cell.str "x")],
       [("site", Cell.str "z"), ("a", Cell.num (JSNum.val 3))]]⟩ = ["a"] := by
  refine ⟨?_, ?_, by with_unfolding_all decide⟩
  · intro st c
    unfold getNumericColumns
    split_ifs with h
    · rw [List.length_eq_zero] at h
      simp [h]
    · rw [List.mem_filter, List.any_eq_true]
  · intro st
    unfold getNumericColumns
    split_ifs
    · exact List.nil_sublist _
    · exact List.filter_sublist _

/-- C8: `columnStats` returns absent exactly when the column has zero numeric
cells, and in particular (second conjunct) whenever the requested column name
occurs in no record — e.g. a nonexistent column — without failing. -/
theorem claim_C8 :
    (∀ (st : PState) (c : String),
       getColumnStats st c = none ↔ ∀ row ∈ st.data, isNumCell (objGet row c) = false) ∧
    (∀ (st : PState) (c : String),
       (∀ row ∈ st.data, c ∉ row.map Prod.fst) → getColumnStats st c = none) := by
  refine ⟨getColumnStats_eq_none_iff, ?_⟩
  intro st c hmem
  rw [getColumnStats_eq_none_iff]
  intro row hrow
  rw [objGet_eq_none c row (hmem row hrow)]
  rfl

theorem claim_C8_witness :
    getColumnStats ⟨["a"], [[("a", Cell.num (JSNum.val 1))]]⟩ "zzz" = none :=
  claim_C8.2 ⟨["a"], [[("a", Cell.num (JSNum.val 1))]]⟩ "zzz" (by decide)

/-- C9 counterexample: the splitter trims each field, so a value with
trailing whitespace does not survive the round trip: `"Site, A "` formats to
a quoted field but parses back to `"Site, A"`. -/
theorem claim_C9_counterexample :
    parseCSVLine (formatField "Site, A ") = ["Site, A"] ∧
    parseCSVLine (formatField "Site, A ") ≠ ["Site, A "] := by
  decide

/-- C9 (amended): for every field value containing a comma or a double quote
and with no leading or trailing whitespace (the splitter trims fields),
formatting with double-quote quoting and doubled-quote escaping and then
parsing the line with the field-splitter returns the original value as a
single field. -/
theorem claim_C9 (v : String) (hv : jsTrim v = v)
    (hq : v.data.contains ',' ∨ v.data.contains '"') :
    parseCSVLine (formatField v) = [v] :=
  parseCSVLine_formatField v hv hq

theorem claim_C9_witness : parseCSVLine (formatField "Site, A") = ["Site, A"] :=
  claim_C9 "Site, A" (by decide) (Or.inl (by decide))

/-- C10: a cell from an empty raw field is stored as the number `NaN`, so a
column whose cells all come from empty fields is reported numeric by
`numericColumnNames`, and `columnStats` on it returns a stats object whose
mean, median and stdev are NaN-valued. -/
theorem claim_C10 :
    coerceCell "" = Cell.num JSNum.nan ∧
    getNumericColumns (parse "a,b\n,1\n,2" ⟨[], []⟩).1 = ["a", "b"] ∧
    getColumnStats (parse "a,b\n,1\n,2" ⟨[], []⟩).1 "a"
      = some ⟨2, JSNum.nan, JSNum.nan, Fixed2.nan, Fixed2.nan, Fixed2.nan⟩ := by
  with_unfolding_all decide

end CSVParser
